import Mathlib

/-!
Shallow embedding of the lexical scanner in `src/main.c`.

The input stream (a C `FILE *` read with `fgetc`/`ungetc`) is modelled as the
list of bytes still unread, each byte a `Nat` below 256.  `fgetc` returns an
`int`, but the program stores it in a (signed) `char`, so a byte `b` is seen
by the scanner as the signed value `sgnChar b`; in particular the byte 0xFF
becomes -1, indistinguishable from the EOF return of `fgetc`, and
`ungetc (-1)` fails, so a peeked 0xFF byte is silently consumed.  The fuel
argument of `next_token_fuel` only bounds the whitespace/comment skipping
loop, which consumes at least one byte per iteration, so `length + 1` fuel
always suffices; the genuinely non-terminating executions (the comment loop
at end of input, `take_string` reading past end of input) are reported as
`LexResult.diverge` by the structurally recursive helpers themselves.
C `int` arithmetic in `take_num` is modelled as wrap-around modulo 2^32 with
the final bit pattern reinterpreted as a signed value by `sgn32`.
Writing past the 256-byte identifier buffer (undefined behaviour in the C
program) is modelled as the distinguished outcome `LexResult.bufOverflow`.
-/

namespace CLexer

/-- Token kinds, mirroring the C enum `TokenType` in src/main.c. -/
inductive TokenType where
  | TOK_EOF
  | TOK_PLUS
  | TOK_MINUS
  | TOK_LPAREN
  | TOK_RPAREN
  | TOK_LBRACE
  | TOK_RBRACE
  | TOK_LBRACKET
  | TOK_RBRACKET
  | TOK_SEMICOLON
  | TOK_EQUALS
  | TOK_NUMBER
  | TOK_IDENT
  | TOK_STRING
  | TOK_LET
deriving DecidableEq

/-- Token payload, mirroring the C union `TokenValue`: either the bit pattern
written through `number_value` or a pointer written through `string_value`
(`vstr none` is the NULL pointer, `vstr (some s)` a heap string `s`).
`(Token){ type, 0 }` in the C code zero-initialises the first union member,
which we model as `vnum 0`. -/
inductive TokenValue where
  | vnum : Int → TokenValue
  | vstr : Option (List Nat) → TokenValue
deriving DecidableEq

/-- A token, mirroring the C struct `Token`. -/
structure Token where
  type : TokenType
  value : TokenValue
deriving DecidableEq

/-- Signed-char reinterpretation of a byte: `char ret = fgetc(f)` in
`take_char` truncates the `int` result to a signed 8-bit value. -/
def sgnChar (b : Nat) : Int := if b < 128 then (b : Int) else (b : Int) - 256

/-- Signed reinterpretation of a 32-bit pattern, for the C `int` result of
`take_num`. -/
def sgn32 (n : Nat) : Int :=
  if n < 2147483648 then (n : Int) else (n : Int) - 4294967296

/-- Byte-level `isdigit` (C locale). -/
def isdigit (b : Nat) : Bool := 48 ≤ b && b ≤ 57

/-- Byte-level `isalpha` (C locale). -/
def isalpha (b : Nat) : Bool := (65 ≤ b && b ≤ 90) || (97 ≤ b && b ≤ 122)

/-- Byte-level `isalnum` (C locale). -/
def isalnum (b : Nat) : Bool := isdigit b || isalpha b

/-- Byte-level `isspace` (C locale): space, \t, \n, \v, \f, \r. -/
def isspace (b : Nat) : Bool := b == 32 || (9 ≤ b && b ≤ 13)

/-- `take_char` on the modelled stream: at end of input `fgetc` yields EOF
(-1); otherwise the next byte, read as a signed char. -/
def take_char : List Nat → Int × List Nat
  | [] => (-1, [])
  | b :: r => (sgnChar b, r)

/-- `ungetc c f` pushes back `(unsigned char) c` unless `c` is EOF (-1), in
which case it fails and the stream is unchanged. -/
def ungetc_m (c : Int) (s : List Nat) : List Nat :=
  if c = -1 then s else (c % 256).toNat :: s

/-- `peek_char`: read one char and push it back.  For a 0xFF byte (and at end
of input) the read value is -1, the push-back fails, and the byte is lost. -/
def peek_char (s : List Nat) : Int × List Nat :=
  let p := take_char s
  (p.1, ungetc_m p.1 p.2)

/-- The C `ident_to_token_type`: the keyword "let" ([108,101,116]) gets its
own kind, everything else is an identifier. -/
def ident_to_token_type (name : List Nat) : TokenType :=
  if name = [108, 101, 116] then .TOK_LET else .TOK_IDENT

/-- The loop of `take_ident`, with `acc` the contents of `buf` so far: peek a
char; while it is alphanumeric or an underscore (95), consume and append it.
A byte that peeks as -1 (0xFF) stops the loop but is consumed, because its
push-back fails.  The C buffer `buf` holds 256 bytes, indices 0..255, so the
write `buf[str_len++] = c` with `str_len = 256` is out of bounds: `none`. -/
def take_ident : List Nat → List Nat → Option (List Nat × List Nat)
  | acc, [] => some (acc, [])
  | acc, b :: r =>
    if isalnum b ∨ b = 95 then
      if 256 ≤ acc.length then none
      else take_ident (acc ++ [b]) r
    else if b = 255 then some (acc, r)
    else some (acc, b :: r)

/-- The loop of `take_num`, with `out` the 32-bit accumulator: peek a char;
while it is a digit or an underscore (95), consume it; digits update
`out = out * 10 + digit` in wrap-around `int` arithmetic, underscores are
skipped.  A byte that peeks as -1 (0xFF) stops the loop but is consumed. -/
def take_num : List Nat → Nat → Nat × List Nat
  | [], out => (out, [])
  | b :: r, out =>
    if isdigit b then take_num r ((out * 10 + (b - 48)) % 4294967296)
    else if b = 95 then take_num r out
    else if b = 255 then (out, r)
    else (out, b :: r)

/-- Escape decoding inside `take_string`: `n` becomes newline, `t` becomes
tab, every other escaped char stands for itself. -/
def esc_map (b : Nat) : Nat := if b = 110 then 10 else if b = 116 then 9 else b

/-- The loop of `take_string` with target quote `tq`, buffer `acc` and the
`escaping` flag: read chars until the (unescaped) target quote, which is
consumed and not appended; a backslash (92) sets `escaping` without
appending; an escaped char is appended after `esc_map`.  At end of input the
C loop keeps reading EOF forever (appending 0xFF bytes): `none`. -/
def take_string (tq : Nat) : List Nat → Bool → List Nat → Option (List Nat × List Nat)
  | _, _, [] => none
  | acc, esc, b :: r =>
    if b = tq ∧ ¬esc then some (acc, r)
    else if esc then take_string tq (acc ++ [esc_map b]) false r
    else if b = 92 then take_string tq acc true r
    else take_string tq (acc ++ [b]) false r

/-- The comment-skipping loop of `next_token`: peek; stop (without consuming)
at a newline (10) or a NUL byte (0) — the C code compares the peeked char
against the NUL character rather than against EOF, so at end of input the
peek yields -1 forever and the loop never exits:
`none`.  A peeked 0xFF byte is consumed by the failed push-back, and the
`take_char` in the loop body then consumes the following byte as well. -/
def skip_comment : List Nat → Option (List Nat)
  | [] => none
  | b :: r =>
    if b = 10 ∨ b = 0 then some (b :: r)
    else if b = 255 then
      match r with
      | [] => none
      | _ :: r2 => skip_comment r2
    else skip_comment r

/-- Result of one `next_token` call: a token plus the remaining stream, a
PANIC on an unexpected character (carrying the offending char value), the
out-of-bounds identifier-buffer write, or non-termination / unbounded
reading past end of input. -/
inductive LexResult where
  | ok : Token → List Nat → LexResult
  | err : Int → LexResult
  | bufOverflow : LexResult
  | diverge : LexResult
deriving DecidableEq

/-- Which branch of the `next_token` dispatch a first byte `b` falls into:
the cases of the C switch statement, in order, followed by the trailing
if/else-if chain (`isspace`, `isalpha || c == underscore`, `isdigit`,
`c == EOF`, PANIC), exactly as the C code tests them.  The tests do not
overlap, so rendering them as a classification function is faithful. -/
inductive CharClass where
  | punct : TokenType → CharClass
  | slash : CharClass
  | quote : CharClass
  | space : CharClass
  | identStart : CharClass
  | digitStart : CharClass
  | ffbyte : CharClass
  | other : CharClass
deriving DecidableEq

/-- Dispatch on the first byte of a token, mirroring the order of the tests
in `next_token` (src/main.c lines 163-220). -/
def classify (b : Nat) : CharClass :=
  if b = 43 then .punct .TOK_PLUS
  else if b = 45 then .punct .TOK_MINUS
  else if b = 40 then .punct .TOK_LPAREN
  else if b = 41 then .punct .TOK_RPAREN
  else if b = 123 then .punct .TOK_LBRACE
  else if b = 125 then .punct .TOK_RBRACE
  else if b = 91 then .punct .TOK_LBRACKET
  else if b = 93 then .punct .TOK_RBRACKET
  else if b = 59 then .punct .TOK_SEMICOLON
  else if b = 61 then .punct .TOK_EQUALS
  else if b = 47 then .slash
  else if b = 39 ∨ b = 34 then .quote
  else if isspace b then .space
  else if isalpha b ∨ b = 95 then .identStart
  else if isdigit b then .digitStart
  else if b = 255 then .ffbyte
  else .other

/-- One call of the C `next_token`, with fuel bounding only the
whitespace/comment restart loop (each restart has consumed at least one
byte, so `length + 1` fuel is always enough; see `next_token`). -/
def next_token_fuel : Nat → List Nat → LexResult
  | 0, _ => .diverge
  | _ + 1, [] => .ok ⟨.TOK_EOF, .vnum 0⟩ []
  | fuel + 1, b :: r =>
    match classify b with
    | .punct t => .ok ⟨t, .vnum 0⟩ r
    | .slash =>
      match r with
      | 47 :: r2 =>
        match skip_comment r2 with
        | none => .diverge
        | some s1 => next_token_fuel fuel s1
      | _ => .err 47
    | .quote =>
      match take_string b [] false r with
      | none => .diverge
      | some (content, rest) => .ok ⟨.TOK_STRING, .vstr (some content)⟩ rest
    | .space => next_token_fuel fuel r
    | .identStart =>
      match take_ident [] (b :: r) with
      | none => .bufOverflow
      | some (name, rest) =>
        let t := ident_to_token_type name
        .ok ⟨t, .vstr (if t = .TOK_IDENT then some name else none)⟩ rest
    | .digitStart =>
      let p := take_num (b :: r) 0
      .ok ⟨.TOK_NUMBER, .vnum (sgn32 p.1)⟩ p.2
    | .ffbyte => .ok ⟨.TOK_EOF, .vnum 0⟩ r
    | .other => .err (sgnChar b)

/-- The C `next_token` on a stream `s`. -/
def next_token (s : List Nat) : LexResult := next_token_fuel (s.length + 1) s

/-- The driving loop of `main`: call `next_token`, collect the token, stop
after (and including) the EndOfInput token.  `none` when a call PANICs,
overflows the identifier buffer or fails to terminate. -/
def tokenize_fuel : Nat → List Nat → Option (List Token)
  | 0, _ => none
  | fuel + 1, s =>
    match next_token s with
    | .ok t s1 =>
      if t.type = .TOK_EOF then some [t]
      else (tokenize_fuel fuel s1).map (fun ts => t :: ts)
    | _ => none

/-- Tokenise a whole input. -/
def tokenize (s : List Nat) : Option (List Token) := tokenize_fuel (s.length + 1) s

/-- Bytes of an ASCII source text. -/
def str_bytes (s : String) : List Nat := s.toList.map Char.toNat

/-- Stream left over after the trailing peek that ends an identifier or
number run: the peeked byte stays in the stream, except a 0xFF byte, whose
failed push-back consumes it. -/
def rest_after : List Nat → List Nat
  | [] => []
  | x :: t => if x = 255 then t else x :: t

/-- Modelled from the spec: the integer formed by concatenating only the
digit characters of a run in order (`value = value * 10 + digit`, left to
right), every underscore skipped — exact (unbounded) arithmetic, seeded with
`a`. -/
def digit_concat_from (run : List Nat) (a : Nat) : Nat :=
  run.foldl (fun acc b => if isdigit b then acc * 10 + (b - 48) else acc) a

/-- Modelled from the spec: the integer formed by concatenating only the
digit characters of a run, underscores ignored. -/
def digit_concat (run : List Nat) : Nat := digit_concat_from run 0

/-- The accumulator updates actually performed by `take_num` over a run of
digits and underscores: wrap-around 32-bit arithmetic. -/
def num_fold (run : List Nat) (out : Nat) : Nat :=
  run.foldl (fun acc b => if isdigit b then (acc * 10 + (b - 48)) % 4294967296 else acc) out

/-- Modelled from the spec: decoding of the escape sequences of a string
literal body — backslash-n becomes newline, backslash-t becomes tab, any
other escaped character passes through unchanged, the backslash itself is
never kept. -/
def decode_escapes : List Nat → List Nat
  | [] => []
  | 92 :: [] => []
  | 92 :: c :: rest2 => esc_map c :: decode_escapes rest2
  | b :: rest => b :: decode_escapes rest

/-- A well-formed body of a string literal delimited by quote `tq`: every
occurrence of `tq` is escaped, and the body does not end in the middle of an
escape sequence.  These are exactly the byte sequences that can stand
between the opening quote and the closing quote. -/
def wf_content (tq : Nat) : List Nat → Bool
  | [] => true
  | 92 :: [] => false
  | 92 :: _ :: rest2 => wf_content tq rest2
  | b :: rest => (b != tq) && wf_content tq rest

/-- Payload invariant of a token: Number tokens carry a number, Identifier
and String tokens carry a non-NULL string, and every other kind carries no
meaningful payload (only the zero bit pattern or a NULL pointer). -/
def payload_ok (t : Token) : Prop :=
  match t.type with
  | .TOK_NUMBER => ∃ n, t.value = .vnum n
  | .TOK_IDENT => ∃ s, t.value = .vstr (some s)
  | .TOK_STRING => ∃ s, t.value = .vstr (some s)
  | _ => t.value = .vnum 0 ∨ t.value = .vstr none

/-! Helper lemmas. -/

lemma isdigit_iff {b : Nat} : isdigit b = true ↔ 48 ≤ b ∧ b ≤ 57 := by
  simp [isdigit]

lemma classify_digit {b : Nat} (hb : isdigit b = true) : classify b = .digitStart := by
  have hb2 : 48 ≤ b ∧ b ≤ 57 := isdigit_iff.mp hb
  have hne : ∀ m : Nat, ¬(48 ≤ m ∧ m ≤ 57) → ¬b = m := by omega
  have hsp : ¬(isspace b = true) := by simp [isspace]; omega
  have hal : ¬(isalpha b = true ∨ b = 95) := by simp [isalpha]; omega
  have hor : ¬(b = 39 ∨ b = 34) := by omega
  simp only [classify]
  rw [if_neg (hne 43 (by omega)), if_neg (hne 45 (by omega)), if_neg (hne 40 (by omega)),
    if_neg (hne 41 (by omega)), if_neg (hne 123 (by omega)), if_neg (hne 125 (by omega)),
    if_neg (hne 91 (by omega)), if_neg (hne 93 (by omega)), if_neg (hne 59 (by omega)),
    if_neg (hne 61 (by omega)), if_neg (hne 47 (by omega)), if_neg hor,
    if_neg hsp, if_neg hal, if_pos hb]

lemma classify_alpha {b : Nat} (hb : isalpha b = true ∨ b = 95) : classify b = .identStart := by
  have hb2 : (65 ≤ b ∧ b ≤ 90) ∨ (97 ≤ b ∧ b ≤ 122) ∨ b = 95 := by
    rcases hb with h | h
    · simp [isalpha] at h; omega
    · omega
  have hsp : ¬(isspace b = true) := by simp [isspace]; omega
  have hne : ∀ m : Nat, ¬((65 ≤ m ∧ m ≤ 90) ∨ (97 ≤ m ∧ m ≤ 122) ∨ m = 95) → ¬b = m := by
    omega
  have hor : ¬(b = 39 ∨ b = 34) := by omega
  simp only [classify]
  rw [if_neg (hne 43 (by omega)), if_neg (hne 45 (by omega)), if_neg (hne 40 (by omega)),
    if_neg (hne 41 (by omega)), if_neg (hne 123 (by omega)), if_neg (hne 125 (by omega)),
    if_neg (hne 91 (by omega)), if_neg (hne 93 (by omega)), if_neg (hne 59 (by omega)),
    if_neg (hne 61 (by omega)), if_neg (hne 47 (by omega)), if_neg hor,
    if_neg hsp, if_pos hb]

lemma classify_quote {q : Nat} (hq : q = 39 ∨ q = 34) : classify q = .quote := by
  have hne : ∀ m : Nat, ¬m = 39 → ¬m = 34 → ¬q = m := by omega
  simp only [classify]
  rw [if_neg (hne 43 (by omega) (by omega)), if_neg (hne 45 (by omega) (by omega)),
    if_neg (hne 40 (by omega) (by omega)), if_neg (hne 41 (by omega) (by omega)),
    if_neg (hne 123 (by omega) (by omega)), if_neg (hne 125 (by omega) (by omega)),
    if_neg (hne 91 (by omega) (by omega)), if_neg (hne 93 (by omega) (by omega)),
    if_neg (hne 59 (by omega) (by omega)), if_neg (hne 61 (by omega) (by omega)),
    if_neg (hne 47 (by omega) (by omega)), if_pos hq]

lemma next_token_digit (b : Nat) (r : List Nat) (hb : isdigit b = true) :
    next_token (b :: r) =
      .ok ⟨.TOK_NUMBER, .vnum (sgn32 (take_num (b :: r) 0).1)⟩ (take_num (b :: r) 0).2 := by
  simp only [next_token, List.length_cons, next_token_fuel, classify_digit hb]

lemma next_token_alpha (b : Nat) (r : List Nat) (hb : isalpha b = true ∨ b = 95) :
    next_token (b :: r) =
      (match take_ident [] (b :: r) with
       | none => .bufOverflow
       | some (name, rest) =>
         .ok ⟨ident_to_token_type name,
              .vstr (if ident_to_token_type name = .TOK_IDENT then some name else none)⟩ rest) := by
  simp only [next_token, List.length_cons, next_token_fuel, classify_alpha hb]

lemma next_token_quote (q : Nat) (r : List Nat) (hq : q = 39 ∨ q = 34) :
    next_token (q :: r) =
      (match take_string q [] false r with
       | none => .diverge
       | some (content, rest) => .ok ⟨.TOK_STRING, .vstr (some content)⟩ rest) := by
  simp only [next_token, List.length_cons, next_token_fuel, classify_quote hq]

lemma take_ident_run : ∀ (run acc rest : List Nat),
    (∀ x ∈ run, isalnum x = true ∨ x = 95) →
    acc.length + run.length ≤ 256 →
    (∀ x, rest.head? = some x → isalnum x = false ∧ x ≠ 95) →
    take_ident acc (run ++ rest) = some (acc ++ run, rest_after rest)
  | [], acc, rest, hrun, hlen, hrest => by
    cases rest with
    | nil => simp [take_ident, rest_after]
    | cons x t =>
      have hx := hrest x rfl
      have h1 : ¬(isalnum x = true ∨ x = 95) := by
        rcases hx with ⟨hx1, hx2⟩
        simp [hx1, hx2]
      simp only [List.nil_append, take_ident, rest_after]
      rw [if_neg h1]
      by_cases h255 : x = 255
      · rw [if_pos h255, if_pos h255]
        simp
      · rw [if_neg h255, if_neg h255]
        simp
  | b :: run2, acc, rest, hrun, hlen, hrest => by
    have hb : isalnum b = true ∨ b = 95 := hrun b (by simp)
    have hlen2 : ¬(256 ≤ acc.length) := by
      simp [List.length_cons] at hlen; omega
    simp only [List.cons_append, take_ident]
    rw [if_pos hb, if_neg hlen2]
    simp only [List.append_eq]
    have ih := take_ident_run run2 (acc ++ [b]) rest
      (fun x hx => hrun x (by simp [hx]))
      (by simp [List.length_append, List.length_cons] at hlen ⊢; omega) hrest
    rw [ih]
    simp

lemma take_num_run : ∀ (run rest : List Nat) (out : Nat),
    (∀ x ∈ run, isdigit x = true ∨ x = 95) →
    (∀ x, rest.head? = some x → isdigit x = false ∧ x ≠ 95) →
    take_num (run ++ rest) out = (num_fold run out, rest_after rest)
  | [], rest, out, hrun, hrest => by
    cases rest with
    | nil => simp [take_num, rest_after, num_fold]
    | cons x t =>
      have hx := hrest x rfl
      simp only [List.nil_append, take_num, rest_after, num_fold, List.foldl_nil]
      rw [if_neg (by simp [hx.1]), if_neg hx.2]
      by_cases h255 : x = 255
      · rw [if_pos h255, if_pos h255]
      · rw [if_neg h255, if_neg h255]
  | b :: run2, rest, out, hrun, hrest => by
    have hb : isdigit b = true ∨ b = 95 := hrun b (by simp)
    simp only [List.cons_append, take_num, List.append_eq, num_fold, List.foldl_cons]
    rcases hb with hb | hb
    · rw [if_pos hb, take_num_run run2 rest _ (fun x hx => hrun x (by simp [hx])) hrest]
      rw [if_pos hb]
      rfl
    · have hnd : isdigit b = false := by rw [hb]; decide
      rw [if_neg (by simp [hnd]), if_pos hb,
        take_num_run run2 rest _ (fun x hx => hrun x (by simp [hx])) hrest]
      rw [if_neg (by simp [hnd])]
      rfl

lemma num_fold_mod : ∀ (run : List Nat) (a : Nat),
    num_fold run (a % 4294967296) = digit_concat_from run a % 4294967296
  | [], a => by simp [num_fold, digit_concat_from]
  | b :: run2, a => by
    simp only [num_fold, digit_concat_from, List.foldl_cons]
    by_cases hb : isdigit b = true
    · rw [if_pos hb, if_pos hb]
      have hcong : (a % 4294967296 * 10 + (b - 48)) % 4294967296
          = (a * 10 + (b - 48)) % 4294967296 := by
        have h1 : a % 4294967296 ≡ a [MOD 4294967296] := Nat.mod_modEq a 4294967296
        exact (h1.mul_right 10).add_right (b - 48)
      rw [hcong]
      exact num_fold_mod run2 (a * 10 + (b - 48))
    · rw [if_neg hb, if_neg hb]
      exact num_fold_mod run2 a

lemma take_string_close (q : Nat) (acc rest : List Nat) :
    take_string q acc false (q :: rest) = some (acc, rest) := by
  simp [take_string]

lemma take_string_backslash (q : Nat) (acc rest : List Nat) (hq : ¬(92 : Nat) = q) :
    take_string q acc false (92 :: rest) = take_string q acc true rest := by
  simp [take_string, hq]

lemma take_string_escaped (q b : Nat) (acc rest : List Nat) :
    take_string q acc true (b :: rest) = take_string q (acc ++ [esc_map b]) false rest := by
  simp [take_string]

lemma take_string_plain (q b : Nat) (acc rest : List Nat) (h1 : ¬b = q) (h2 : ¬b = 92) :
    take_string q acc false (b :: rest) = take_string q (acc ++ [b]) false rest := by
  simp [take_string, h1, h2]

lemma take_string_wf (q : Nat) (hq : q = 34 ∨ q = 39) (rest : List Nat) :
    ∀ (content acc : List Nat), wf_content q content = true →
    take_string q acc false (content ++ q :: rest) = some (acc ++ decode_escapes content, rest) := by
  intro content
  induction content using decode_escapes.induct with
  | case1 =>
    intro acc hwf
    simp only [List.nil_append, decode_escapes, take_string_close, List.append_nil]
  | case2 =>
    intro acc hwf
    simp [wf_content] at hwf
  | case3 c rest2 ih =>
    intro acc hwf
    have hwf2 : wf_content q rest2 = true := by
      simpa [wf_content] using hwf
    have h92q : ¬(92 : Nat) = q := by omega
    simp only [List.cons_append, decode_escapes]
    rw [take_string_backslash q acc _ h92q, take_string_escaped,
      ih (acc ++ [esc_map c]) hwf2]
    simp
  | case4 b rest2 hb1 hb2 ih =>
    intro acc hwf
    have hb92 : ¬b = 92 := by
      intro h
      cases rest2 with
      | nil => exact hb1 h rfl
      | cons c t => exact hb2 c t h rfl
    have hwf2 : (¬b = q) ∧ wf_content q rest2 = true := by
      have := hwf
      simp [wf_content, hb92] at this
      exact ⟨this.1, this.2⟩
    simp only [List.cons_append]
    rw [decode_escapes.eq_4 b rest2]
    rotate_left
    · intro h; exact absurd h hb92
    · intro c t h; exact absurd h hb92
    rw [take_string_plain q b acc _ hwf2.1 hb92, ih (acc ++ [b]) hwf2.2]
    simp

lemma classify_punct {b : Nat} {tt : TokenType} (h : classify b = .punct tt) :
    tt = .TOK_PLUS ∨ tt = .TOK_MINUS ∨ tt = .TOK_LPAREN ∨ tt = .TOK_RPAREN ∨
    tt = .TOK_LBRACE ∨ tt = .TOK_RBRACE ∨ tt = .TOK_LBRACKET ∨ tt = .TOK_RBRACKET ∨
    tt = .TOK_SEMICOLON ∨ tt = .TOK_EQUALS := by
  simp only [classify] at h
  by_cases h1 : b = 43
  · rw [if_pos h1] at h
    injection h with hv
    subst hv
    simp
  · rw [if_neg h1] at h
    by_cases h2 : b = 45
    · rw [if_pos h2] at h
      injection h with hv
      subst hv
      simp
    · rw [if_neg h2] at h
      by_cases h3 : b = 40
      · rw [if_pos h3] at h
        injection h with hv
        subst hv
        simp
      · rw [if_neg h3] at h
        by_cases h4 : b = 41
        · rw [if_pos h4] at h
          injection h with hv
          subst hv
          simp
        · rw [if_neg h4] at h
          by_cases h5 : b = 123
          · rw [if_pos h5] at h
            injection h with hv
            subst hv
            simp
          · rw [if_neg h5] at h
            by_cases h6 : b = 125
            · rw [if_pos h6] at h
              injection h with hv
              subst hv
              simp
            · rw [if_neg h6] at h
              by_cases h7 : b = 91
              · rw [if_pos h7] at h
                injection h with hv
                subst hv
                simp
              · rw [if_neg h7] at h
                by_cases h8 : b = 93
                · rw [if_pos h8] at h
                  injection h with hv
                  subst hv
                  simp
                · rw [if_neg h8] at h
                  by_cases h9 : b = 59
                  · rw [if_pos h9] at h
                    injection h with hv
                    subst hv
                    simp
                  · rw [if_neg h9] at h
                    by_cases h10 : b = 61
                    · rw [if_pos h10] at h
                      injection h with hv
                      subst hv
                      simp
                    · rw [if_neg h10] at h
                      by_cases h11 : b = 47
                      · rw [if_pos h11] at h
                        exact absurd h (by simp)
                      · rw [if_neg h11] at h
                        by_cases h12 : b = 39 ∨ b = 34
                        · rw [if_pos h12] at h
                          exact absurd h (by simp)
                        · rw [if_neg h12] at h
                          by_cases h13 : isspace b = true
                          · rw [if_pos h13] at h
                            exact absurd h (by simp)
                          · rw [if_neg h13] at h
                            by_cases h14 : isalpha b = true ∨ b = 95
                            · rw [if_pos h14] at h
                              exact absurd h (by simp)
                            · rw [if_neg h14] at h
                              by_cases h15 : isdigit b = true
                              · rw [if_pos h15] at h
                                exact absurd h (by simp)
                              · rw [if_neg h15] at h
                                by_cases h16 : b = 255
                                · rw [if_pos h16] at h
                                  exact absurd h (by simp)
                                · rw [if_neg h16] at h
                                  exact absurd h (by simp)

lemma classify_other {b : Nat}
    (hpunct : b ∉ ([43, 45, 40, 41, 123, 125, 91, 93, 59, 61] : List Nat))
    (hslash : b ≠ 47) (hq1 : b ≠ 39) (hq2 : b ≠ 34)
    (hsp : isspace b = false) (hal : isalpha b = false) (hund : b ≠ 95)
    (hdig : isdigit b = false) (hff : b ≠ 255) :
    classify b = .other := by
  simp only [List.mem_cons, List.not_mem_nil, or_false] at hpunct
  push_neg at hpunct
  obtain ⟨n43, n45, n40, n41, n123, n125, n91, n93, n59, n61⟩ := hpunct
  simp only [classify]
  rw [if_neg n43, if_neg n45, if_neg n40, if_neg n41, if_neg n123, if_neg n125,
    if_neg n91, if_neg n93, if_neg n59, if_neg n61, if_neg hslash,
    if_neg (show ¬(b = 39 ∨ b = 34) by tauto),
    if_neg (show ¬(isspace b = true) by simp [hsp]),
    if_neg (show ¬(isalpha b = true ∨ b = 95) by simp [hal, hund]),
    if_neg (show ¬(isdigit b = true) by simp [hdig]),
    if_neg hff]

lemma next_token_fuel_payload : ∀ (fuel : Nat) (s : List Nat) (t : Token) (s1 : List Nat),
    next_token_fuel fuel s = .ok t s1 → payload_ok t := by
  intro fuel
  induction fuel with
  | zero =>
    intro s t s1 h
    simp only [next_token_fuel] at h
    exact absurd h (by simp)
  | succ n ih =>
    intro s t s1 h
    cases s with
    | nil =>
      simp only [next_token_fuel, LexResult.ok.injEq] at h
      obtain ⟨ht, hs⟩ := h
      subst ht
      simp [payload_ok]
    | cons b r =>
      simp only [next_token_fuel] at h
      split at h
      · -- punctuation branch
        rename_i x tt heq
        simp only [LexResult.ok.injEq] at h
        obtain ⟨ht, hs⟩ := h
        subst ht
        rcases classify_punct heq with hp | hp | hp | hp | hp | hp | hp | hp | hp | hp <;>
          (subst hp; simp [payload_ok])
      · -- comment branch
        split at h
        · split at h
          · exact absurd h (by simp)
          · exact ih _ _ _ h
        · exact absurd h (by simp)
      · -- string branch
        split at h
        · exact absurd h (by simp)
        · simp only [LexResult.ok.injEq] at h
          obtain ⟨ht, hs⟩ := h
          subst ht
          simp [payload_ok]
      · -- whitespace branch
        exact ih _ _ _ h
      · -- identifier branch
        split at h
        · exact absurd h (by simp)
        · rename_i p name rest heq2
          simp only [LexResult.ok.injEq] at h
          obtain ⟨ht, hs⟩ := h
          subst ht
          by_cases hn : name = [108, 101, 116]
          · simp [payload_ok, ident_to_token_type, hn]
          · simp [payload_ok, ident_to_token_type, hn]
      · -- number branch
        simp only [LexResult.ok.injEq] at h
        obtain ⟨ht, hs⟩ := h
        subst ht
        simp [payload_ok]
      · -- 0xFF byte branch
        simp only [LexResult.ok.injEq] at h
        obtain ⟨ht, hs⟩ := h
        subst ht
        simp [payload_ok]
      · -- unrecognized-character branch
        exact absurd h (by simp)


/-! Claim theorems. -/

/-- Claim C1: scanning the input `let x = 1_2 + 3;` produces exactly the
token sequence Let, Identifier x, Equals, Number 12, Plus, Number 3,
Semicolon, EndOfInput, in that order. -/
theorem c1_end_to_end :
    tokenize (str_bytes ("let x = 1_2 + 3;")) =
      some [⟨.TOK_LET, .vstr none⟩, ⟨.TOK_IDENT, .vstr (some [120])⟩,
        ⟨.TOK_EQUALS, .vnum 0⟩, ⟨.TOK_NUMBER, .vnum 12⟩, ⟨.TOK_PLUS, .vnum 0⟩,
        ⟨.TOK_NUMBER, .vnum 3⟩, ⟨.TOK_SEMICOLON, .vnum 0⟩, ⟨.TOK_EOF, .vnum 0⟩] := by
  rfl

/-- Claim C2 counterexample: on the all-digit run `4294967296` (which is
2 to the power 32), the scanner returns Number 0, not the concatenated
integer 4294967296 — the 32-bit `int` accumulator wraps around, so the
claimed equality fails for runs whose digit concatenation exceeds the
`int` range. -/
theorem c2_overflow_counterexample :
    next_token (str_bytes ("4294967296")) = .ok ⟨.TOK_NUMBER, .vnum 0⟩ [] ∧
    digit_concat (str_bytes ("4294967296")) = 4294967296 ∧
    (0 : Int) ≠ (4294967296 : Int) := by
  refine ⟨by rfl, by rfl, by decide⟩

/-- Claim C2 (amended): for every maximal run of digits and underscores
beginning with a digit, the scanner returns a Number token whose value is
the integer formed by concatenating only the digit characters (underscores
skipped entirely, wherever they appear) reduced modulo 2 to the power 32
and reinterpreted as a signed 32-bit integer; in particular the value
equals the exact concatenation whenever that fits in the `int` range. -/
theorem c2_number_value (d : Nat) (run rest : List Nat)
    (hd : isdigit d = true)
    (hrun : ∀ x ∈ run, isdigit x = true ∨ x = 95)
    (hrest : ∀ x, rest.head? = some x → isdigit x = false ∧ x ≠ 95) :
    ∃ rest2, next_token ((d :: run) ++ rest) =
      .ok ⟨.TOK_NUMBER, .vnum (sgn32 (digit_concat (d :: run) % 4294967296))⟩ rest2 := by
  refine ⟨rest_after rest, ?_⟩
  rw [show (d :: run) ++ rest = d :: (run ++ rest) from rfl, next_token_digit d _ hd]
  have hrun2 : ∀ x ∈ d :: run, isdigit x = true ∨ x = 95 := by
    intro x hx
    rcases List.mem_cons.mp hx with h | h
    · subst h; exact Or.inl hd
    · exact hrun x h
  have htn : take_num (d :: (run ++ rest)) 0 = (num_fold (d :: run) 0, rest_after rest) :=
    take_num_run (d :: run) rest 0 hrun2 hrest
  rw [htn]
  have hv : num_fold (d :: run) 0 = digit_concat (d :: run) % 4294967296 := by
    have h0 := num_fold_mod (d :: run) 0
    rw [Nat.zero_mod] at h0
    rw [h0, digit_concat]
  rw [hv]

/-- Claim C2 witness: the run `1_2` scans to Number 12. -/
theorem c2_witness :
    ∃ rest2, next_token (([49, 95, 50] : List Nat) ++ []) =
      .ok ⟨.TOK_NUMBER, .vnum (sgn32 (digit_concat [49, 95, 50] % 4294967296))⟩ rest2 :=
  c2_number_value 49 [95, 50] [] (by decide)
    (by intro x hx; simp at hx; rcases hx with h | h <;> simp [h, isdigit])
    (by simp)

/-- Claim C3 counterexample: on the input consisting of the letter `a`
followed by the byte 0xFF, the scanner returns Identifier "a" but consumes
the 0xFF byte as well — the trailing look-ahead reads it as -1 and
`ungetc(-1)` fails, so the first character after the run is NOT left
unconsumed as the claim requires (the residual stream is empty, not
[255]). -/
theorem c3_ff_counterexample :
    next_token [97, 255] = .ok ⟨.TOK_IDENT, .vstr (some [97])⟩ [] ∧
    next_token [97, 255] ≠ .ok ⟨.TOK_IDENT, .vstr (some [97])⟩ [255] := by
  exact ⟨by rfl, by decide⟩

/-- Claim C3 (amended): for every maximal run of alphanumerics and
underscores starting with a letter or underscore, of length at most 256
(longer runs overflow the fixed 256-byte identifier buffer, which is
undefined behaviour), scanning yields an Identifier token whose text is
exactly the run — except that the exact run "let" yields the payload-less
Let token — and the first character after the run is left unconsumed
unless it is the byte 0xFF, which the failed push-back consumes. -/
theorem c3_identifier (b : Nat) (run rest : List Nat)
    (hb : isalpha b = true ∨ b = 95)
    (hrun : ∀ x ∈ run, isalnum x = true ∨ x = 95)
    (hlen : (b :: run).length ≤ 256)
    (hrest : ∀ x, rest.head? = some x → isalnum x = false ∧ x ≠ 95) :
    next_token ((b :: run) ++ rest) =
      .ok (if b :: run = [108, 101, 116] then ⟨.TOK_LET, .vstr none⟩
        else ⟨.TOK_IDENT, .vstr (some (b :: run))⟩) (rest_after rest) := by
  rw [show (b :: run) ++ rest = b :: (run ++ rest) from rfl, next_token_alpha b _ hb]
  have hrun2 : ∀ x ∈ b :: run, isalnum x = true ∨ x = 95 := by
    intro x hx
    rcases List.mem_cons.mp hx with h | h
    · subst h
      rcases hb with h2 | h2
      · exact Or.inl (by simp [isalnum, h2])
      · exact Or.inr h2
    · exact hrun x h
  have hti : take_ident [] (b :: (run ++ rest)) = some ([] ++ (b :: run), rest_after rest) :=
    take_ident_run (b :: run) [] rest hrun2 (by simpa using hlen) hrest
  rw [hti]
  simp only [List.nil_append]
  by_cases hn : b :: run = [108, 101, 116]
  · simp [ident_to_token_type, hn]
  · simp [ident_to_token_type, hn]

/-- Claim C3 witness: the single-letter input `x` scans to Identifier "x"
with nothing left over. -/
theorem c3_witness :
    next_token (([120] : List Nat) ++ []) =
      .ok (if [120] = ([108, 101, 116] : List Nat) then ⟨.TOK_LET, .vstr none⟩
        else ⟨.TOK_IDENT, .vstr (some [120])⟩) (rest_after []) :=
  c3_identifier 120 [] [] (by decide) (by simp) (by decide) (by simp)

/-- Claim C4: for every terminated string literal — an opening quote, a
well-formed body, and the matching closing quote — the scanner returns a
String token whose payload is the body with escapes decoded (backslash-n
to newline, backslash-t to tab, any other escaped character unchanged, the
backslash itself never appended); the delimiting quotes are not in the
payload and the closing quote is consumed. -/
theorem c4_string_literal (q : Nat) (content rest : List Nat)
    (hq : q = 34 ∨ q = 39) (hwf : wf_content q content = true) :
    next_token ((q :: content) ++ (q :: rest)) =
      .ok ⟨.TOK_STRING, .vstr (some (decode_escapes content))⟩ rest := by
  rw [show (q :: content) ++ (q :: rest) = q :: (content ++ q :: rest) from rfl,
    next_token_quote q _ hq.symm]
  rw [take_string_wf q hq rest content [] hwf]
  simp

/-- Claim C4 witness: the literal `"hi\n"` (bytes h i backslash n between
double quotes) scans to the String token h i newline. -/
theorem c4_witness :
    next_token ((34 :: [104, 105, 92, 110]) ++ (34 :: [])) =
      .ok ⟨.TOK_STRING, .vstr (some (decode_escapes [104, 105, 92, 110]))⟩ [] :=
  c4_string_literal 34 [104, 105, 92, 110] [] (by decide) (by decide)

/-- Claim C5 counterexample: on the input 0xFF `+`, the first call returns
EndOfInput (the 0xFF byte reads as -1, the EOF sentinel) with the `+` still
unread, and the next call returns Plus — so a return of EndOfInput is NOT a
stable terminal state on all inputs. -/
theorem c5_counterexample :
    next_token [255, 43] = .ok ⟨.TOK_EOF, .vnum 0⟩ [43] ∧
    next_token [43] = .ok ⟨.TOK_PLUS, .vnum 0⟩ [] ∧
    TokenType.TOK_PLUS ≠ TokenType.TOK_EOF := by
  exact ⟨by rfl, by rfl, by decide⟩

/-- Claim C5 (amended): once next_token returns EndOfInput because the
input really is exhausted, every subsequent call returns EndOfInput again
without consuming input and without erroring: at the empty stream the call
returns the EndOfInput token and leaves the stream empty, so all later
calls repeat it. -/
theorem c5_eof_idempotent : next_token [] = .ok ⟨.TOK_EOF, .vnum 0⟩ [] := by
  rfl

/-- Claim C6: a line comment that reaches end of input without a newline
makes next_token loop forever — the comment loop stops only at a newline
or a NUL byte, never at the EOF sentinel, contradicting the claimed
termination with EndOfInput (failing input `//a`). -/
theorem c6_comment_unterminated : next_token (str_bytes ("//a")) = .diverge := by
  rfl

/-- Claim C7: a first byte that is not punctuation, not a slash, not a
quote, not whitespace, not a letter, underscore or digit, and not the EOF
sentinel (0xFF or empty input) makes next_token PANIC with the offending
character value — it neither skips the byte nor returns a placeholder
token. -/
theorem c7_unrecognized (b : Nat) (r : List Nat)
    (hbyte : b < 256)
    (hpunct : b ∉ ([43, 45, 40, 41, 123, 125, 91, 93, 59, 61] : List Nat))
    (hslash : b ≠ 47) (hq1 : b ≠ 39) (hq2 : b ≠ 34)
    (hsp : isspace b = false) (hal : isalpha b = false) (hund : b ≠ 95)
    (hdig : isdigit b = false) (hff : b ≠ 255) :
    next_token (b :: r) = .err (sgnChar b) := by
  simp only [next_token, List.length_cons, next_token_fuel,
    classify_other hpunct hslash hq1 hq2 hsp hal hund hdig hff]

/-- Claim C7 witness: the byte `@` (64) is rejected with a PANIC naming it. -/
theorem c7_witness : next_token [64] = .err (sgnChar 64) :=
  c7_unrecognized 64 [] (by decide) (by decide) (by decide) (by decide)
    (by decide) (by rfl) (by rfl) (by decide) (by rfl) (by decide)

/-- Claim C8: a string literal closes only with the quote character that
opened it; the other quote character, met unescaped inside the literal, is
appended to the payload as ordinary content and scanning continues, while
the opening quote character terminates the literal at once. -/
theorem c8_quote_matching (q other : Nat) (acc rest : List Nat)
    (hqo : (q = 34 ∧ other = 39) ∨ (q = 39 ∧ other = 34)) :
    take_string q acc false (other :: rest) = take_string q (acc ++ [other]) false rest ∧
    take_string q acc false (q :: rest) = some (acc, rest) := by
  rcases hqo with ⟨hq, ho⟩ | ⟨hq, ho⟩ <;> subst hq <;> subst ho <;>
    exact ⟨take_string_plain _ _ _ _ (by decide) (by decide), take_string_close _ _ _⟩

/-- Claim C8 witness: inside a single-quoted literal a double quote is
plain content, and a single quote closes it. -/
theorem c8_witness :
    take_string 39 [] false (34 :: []) = take_string 39 ([] ++ [34]) false [] ∧
    take_string 39 [] false (39 :: []) = some ([], []) :=
  c8_quote_matching 39 34 [] [] (by decide)

/-- Claim C9: every token returned by next_token satisfies the payload
invariant — Number carries a number, Identifier and String carry a
non-NULL string, and punctuation, Let and EndOfInput tokens carry no
meaningful payload. -/
theorem c9_payload_invariant (s : List Nat) (t : Token) (s1 : List Nat)
    (h : next_token s = .ok t s1) : payload_ok t :=
  next_token_fuel_payload (s.length + 1) s t s1 h

/-- Claim C9 witness: the Number token produced from the input `5`. -/
theorem c9_witness : payload_ok ⟨.TOK_NUMBER, .vnum 5⟩ :=
  c9_payload_invariant [53] ⟨.TOK_NUMBER, .vnum 5⟩ [] (by rfl)

/-- Claim C10: a 0xFF input byte reads as the EOF sentinel, so next_token
returns EndOfInput there (consuming the byte) instead of treating it as an
unrecognized character. -/
theorem c10_ff_byte (r : List Nat) :
    next_token (255 :: r) = .ok ⟨.TOK_EOF, .vnum 0⟩ r := by
  simp only [next_token, List.length_cons, next_token_fuel,
    show classify 255 = CharClass.ffbyte from by decide]

end CLexer
